import Mathlib

/-!
Verification of the gameplay core of the Rustania rhythm game.

The Rust source (src/models.rs, src/parser.rs, src/game.rs) is shallowly
embedded here.  `f32` times, scores and thresholds are modelled by `ℚ`
(all constants involved in the claims are exact decimal literals, and the
arithmetic in the claims stays well within `f32` idealisation); the
mutable `GameState` is threaded explicitly through each judgment pass, in
the exact order of `update_and_draw`.  Real-time clocks, rendering and the
audio device are outside the modelled core: the audio commands emitted by
the slider-sound pass are reified as values, and the displayed judgment
colour is modelled by the tier it is computed from (`HitJudgment::color`
is an injective table from tiers to fixed colours).

Caveat recorded once here: `ℚ` division by zero yields `0` where `f32`
yields `±inf`; every theorem below that involves a division constrains the
divisor away from `0` (timing-point values are hypothesised positive or
negative, never zero).
-/

namespace Rustania

/-- Judgment tiers (`models.rs`, `enum HitJudgment`). -/
inductive HitJudgment where
  | Perfect
  | Great
  | Good
  | Ok
  | Miss
deriving DecidableEq

/-- `HitJudgment::from_timing` (models.rs:17-29): classify an absolute
timing offset (seconds) into a tier by the fixed windows. -/
def HitJudgment.from_timing (abs_diff : ℚ) : HitJudgment :=
  if abs_diff ≤ 0.040 then .Perfect
  else if abs_diff ≤ 0.075 then .Great
  else if abs_diff ≤ 0.110 then .Good
  else if abs_diff ≤ 0.135 then .Ok
  else .Miss

/-- `HitJudgment::score_value` (models.rs:31-39). -/
def HitJudgment.score_value : HitJudgment → Int
  | .Perfect => 300
  | .Great => 200
  | .Good => 100
  | .Ok => 50
  | .Miss => 0

/-- `HitJudgment::text` (models.rs:51-59). -/
def HitJudgment.text : HitJudgment → String
  | .Perfect => "PERFECT"
  | .Great => "GREAT"
  | .Good => "GOOD"
  | .Ok => "OK"
  | .Miss => "MISS"

/-- `struct Note` (models.rs:62-79). -/
structure Note where
  start_time : ℚ
  end_time : ℚ
  lane : Nat
  hit : Bool
  missed : Bool
  is_ln : Bool
  ln_head_hit : Bool
  ln_hold_broken : Bool
  ln_completed : Bool
  ln_head_judgment : Option HitJudgment
  ln_tail_judgment : Option HitJudgment
  slider_sound_playing : Bool
deriving DecidableEq

/-- `struct HitCounts` (models.rs:104-110); the counters are `i32`. -/
structure HitCounts where
  perfect : Int
  great : Int
  good : Int
  ok : Int
  miss : Int
deriving DecidableEq

/-- The judgment-relevant part of `struct GameState` (models.rs:81-102).
Fields tied to wall-clock time, pause bookkeeping, rendering and the audio
device handle are outside the modelled core.  `judgment_color` stores the
tier whose fixed colour the code assigns (`RED` is `HitJudgment::Miss`'s
colour). -/
structure GameState where
  notes : List Note
  score : Int
  combo : Int
  last_judgment : String
  judgment_color : HitJudgment
  judgment_time : ℚ
  key_count : Nat
  last_input_delay : ℚ
  hit_counts : HitCounts
deriving DecidableEq

/-- `OK_WINDOW` (game.rs:5): ±135 ms. -/
def OK_WINDOW : ℚ := 0.135

/-- `MIN_LN_DURATION` (parser.rs:10): 150 ms. -/
def MIN_LN_DURATION : ℚ := 0.15

/-! ## Chart parsing (parser.rs, `load_map`) -/

/-- The beat length an inherited point carries forward (parser.rs:138-142):
the most recent stored point with a positive beat length, `500.0` if none. -/
def storedCarry (acc : List (ℚ × ℚ × ℚ)) : ℚ :=
  ((acc.reverse.find? fun p => decide (0 < p.2.1)).map fun p => p.2.1).getD 500

/-- One step of the `[TimingPoints]` loop (parser.rs:128-145) on an
already-numeric line `(time, val)` (the `parse().unwrap_or` defaults `0.0`
and `500.0` have been applied to the raw text; lines with fewer than two
fields are skipped before this step).  A positive value is stored
directly with multiplier `1.0`; otherwise the carried beat length is
stored with multiplier `-100.0 / val`. -/
def tpStep (acc : List (ℚ × ℚ × ℚ)) (l : ℚ × ℚ) : List (ℚ × ℚ × ℚ) :=
  if 0 < l.2 then
    acc ++ [(l.1, l.2, 1)]
  else
    acc ++ [(l.1, storedCarry acc, -100 / l.2)]

/-- The whole `[TimingPoints]` loop. -/
def buildTimingPoints (ls : List (ℚ × ℚ)) : List (ℚ × ℚ × ℚ) :=
  ls.foldl tpStep []

/-- The empty-table default of parser.rs:151-153. -/
def loadTimingPoints (ls : List (ℚ × ℚ)) : List (ℚ × ℚ × ℚ) :=
  let tps := buildTimingPoints ls
  if tps.isEmpty then [(0, 500, 1)] else tps

/-- Active `(beat_length, velocity_multiplier)` at a chart time
(parser.rs:196-200): last stored point with `time ≤ time_ms`, default
`(500.0, 1.0)`. -/
def velocity_at (tps : List (ℚ × ℚ × ℚ)) (time_ms : ℚ) : ℚ × ℚ :=
  ((tps.reverse.find? fun p => decide (p.1 ≤ time_ms)).map fun p => (p.2.1, p.2.2)).getD
    (500, 1)

/-- A `[HitObjects]` line after numeric parsing (parser.rs:174-194):
`len` is the number of comma-separated fields, and each numeric field
already carries its `unwrap_or` default (`x`, `time_ms`, `pixel_length`,
`endTimeField` default `0`; `obj_type` default `0`; `slides` default `1`).
`endTimeField` is the part of field 5 before the first `:`. -/
structure HitObjLine where
  len : Nat
  x : ℚ
  time_ms : ℚ
  obj_type : Int
  endTimeField : ℚ
  slides : ℚ
  pixel_length : ℚ
deriving DecidableEq

/-- `obj_type & 128 != 0` on an `i32`, expressed on `ℤ` through the low
byte (two's complement: bit 7 of `t` is set iff `t mod 256 ≥ 128`). -/
def is_hold_bit (t : Int) : Bool := decide (128 ≤ t % 256)

/-- `obj_type & 2 != 0` on an `i32` (bit 1 of `t` is set iff
`t mod 4 ≥ 2`). -/
def is_slider_bit (t : Int) : Bool := decide (2 ≤ t % 4)

/-- `lane = clamp(floor(x * key_count / 512), 0, key_count - 1)`
(parser.rs:181-182); the `as usize` cast saturates negatives at `0`,
matching `Int.toNat`.  `kc = 0` would panic in the source (under-flowing
`kc - 1`) and is outside the modelled inputs (the callers pass 2 or 4). -/
def laneOf (x : ℚ) (kc : Nat) : Nat :=
  (Int.toNat ⌊x * (kc : ℚ) / 512⌋).min (kc - 1)

/-- Note construction from one `[HitObjects]` line (parser.rs:173-226).
Lines with fewer than 4 fields are skipped (`none`).  A hold with a
sixth field takes its end time from it; a slider with at least 8 fields
computes a duration from the active timing point; anything else keeps
`end_time_ms = 0.0`. -/
def buildNote (tps : List (ℚ × ℚ × ℚ)) (slider_multiplier : ℚ) (kc : Nat)
    (L : HitObjLine) : Option Note :=
  if L.len < 4 then none
  else
    let lane := laneOf L.x kc
    let is_hold := is_hold_bit L.obj_type
    let is_slider := is_slider_bit L.obj_type
    let end_time_ms : ℚ :=
      if is_hold ∧ 5 < L.len then L.endTimeField
      else if is_slider ∧ 8 ≤ L.len then
        let bv := velocity_at tps L.time_ms
        let base_velocity := slider_multiplier * 100 * bv.2
        L.time_ms + L.pixel_length / base_velocity * bv.1 * L.slides
      else 0
    let start_time := L.time_ms / 1000
    let end_time := end_time_ms / 1000
    some
      { start_time
        end_time
        lane
        hit := false
        missed := false
        is_ln := decide (MIN_LN_DURATION ≤ end_time - start_time)
        ln_head_hit := false
        ln_hold_broken := false
        ln_completed := false
        ln_head_judgment := none
        ln_tail_judgment := none
        slider_sound_playing := false }

/-- The `[Events]` background scan of one line (parser.rs:69-72).
`none` marks the panic: for a line that starts with `0,0,"` the code runs
`line[start..].find('"').unwrap()`, which aborts when the closing quote is
missing.  `some none` is a line the scan ignores; `some (some f)` extracts
the file name `f` between the quotes. -/
def parseEventsBgLine (line : List Char) : Option (Option (List Char)) :=
  if line.take 5 = ['0', ',', '0', ',', '"'] then
    match (line.drop 5).findIdx? (· = '"') with
    | some j => some (some ((line.drop 5).take j))
    | none => none
  else some none

/-! ## Judgment passes (game.rs) -/

/-- `f32::abs`, written so that it evaluates by kernel reduction
(Mathlib's lattice-based `|q|` does not). -/
def rabs (q : ℚ) : ℚ := if q < 0 then -q else q

/-- Candidate filter of `handle_key_press` (game.rs:329-342): right lane,
head not yet judged and note not terminal, offset strictly inside the Ok
window.  (`continue`-style guards in the source collapse to one
conjunction.) -/
def canHit (n : Note) : Bool :=
  if n.is_ln then !n.ln_head_hit && !n.missed else !n.hit && !n.missed

/-- A note eligible for selection on a press in `lane` at time `now`. -/
def isCand (lane : Nat) (now : ℚ) (n : Note) : Bool :=
  decide (n.lane = lane) && canHit n && decide (rabs (n.start_time - now) < OK_WINDOW)

/-- One iteration of the selection loop of `handle_key_press`
(game.rs:328-351): an eligible note replaces the running best exactly when
its absolute offset is strictly smaller, so ties keep the earlier note. -/
def selStep (lane : Nat) (now : ℚ) (idx : Nat) (acc : Option (Nat × ℚ))
    (n : Note) : Option (Nat × ℚ) :=
  if isCand lane now n then
    let d := rabs (n.start_time - now)
    match acc with
    | none => some (idx, d)
    | some (k, c) => if d < c then some (idx, d) else some (k, c)
  else acc

/-- The selection loop of `handle_key_press` (game.rs:326-351). -/
def findClosestAux (lane : Nat) (now : ℚ) :
    Nat → Option (Nat × ℚ) → List Note → Option (Nat × ℚ)
  | _, acc, [] => acc
  | idx, acc, n :: rest =>
    findClosestAux lane now (idx + 1) (selStep lane now idx acc n) rest

/-- `closest_note` of `handle_key_press`. -/
def findClosest (lane : Nat) (now : ℚ) (notes : List Note) : Option (Nat × ℚ) :=
  findClosestAux lane now 0 none notes

/-- `HitCounts` bucket increment (game.rs:369-375 / 392-398); a `Miss`
falls through the `_ => {}` arm. -/
def HitCounts.bump (h : HitCounts) : HitJudgment → HitCounts
  | .Perfect => { h with perfect := h.perfect + 1 }
  | .Great => { h with great := h.great + 1 }
  | .Good => { h with good := h.good + 1 }
  | .Ok => { h with ok := h.ok + 1 }
  | .Miss => h

/-- `handle_key_press` (game.rs:324-412).  The index returned by the
selection loop is always in bounds; the `none` arm of the lookup is
unreachable and returns the state unchanged. -/
def handle_key_press (s : GameState) (lane : Nat) (now : ℚ) : GameState :=
  match findClosest lane now s.notes with
  | none => s
  | some (idx, _) =>
    match s.notes[idx]? with
    | none => s
    | some note =>
      let timing_diff := note.start_time - now
      let judgment := HitJudgment.from_timing (rabs timing_diff)
      if judgment = HitJudgment.Miss then s
      else if note.is_ln then
        { s with
          notes := s.notes.set idx
            { note with ln_head_hit := true, ln_head_judgment := some judgment }
          combo := s.combo + 1
          score := s.score + judgment.score_value
          hit_counts := s.hit_counts.bump judgment
          last_judgment := judgment.text
          judgment_color := judgment
          judgment_time := now
          last_input_delay := timing_diff * 1000 }
      else
        { s with
          notes := s.notes.set idx { note with hit := true }
          combo := s.combo + 1
          score := s.score + judgment.score_value
          hit_counts := s.hit_counts.bump judgment
          last_judgment := judgment.text
          judgment_color := judgment
          judgment_time := now
          last_input_delay := timing_diff * 1000 }

/-- The tail-release update on one long note (game.rs:428-447). -/
def completedTail (j : HitJudgment) (n : Note) : Note :=
  { n with ln_tail_judgment := some j, ln_completed := true }

/-- `handle_key_release` (game.rs:414-458): walk the notes, judge the
first active long note of the lane whose tail offset is inside the Ok
window, then `break`; notes failing any guard are skipped. -/
def relGo (lane : Nat) (now : ℚ) : List Note → GameState → List Note × GameState
  | [], s => ([], s)
  | n :: rest, s =>
    if n.lane = lane ∧ n.is_ln ∧ n.ln_head_hit ∧ ¬n.ln_completed ∧ ¬n.ln_hold_broken ∧
        rabs (n.end_time - now) < OK_WINDOW then
      let tail_judgment := HitJudgment.from_timing (rabs (n.end_time - now))
      (completedTail tail_judgment n :: rest,
        { s with
          combo := s.combo + 1
          score := s.score + tail_judgment.score_value
          hit_counts := s.hit_counts.bump tail_judgment
          last_judgment := tail_judgment.text
          judgment_color := tail_judgment
          judgment_time := now
          last_input_delay := (n.end_time - now) * 1000 })
    else
      let r := relGo lane now rest s
      (n :: r.1, r.2)

/-- `handle_key_release`, packaged on the state. -/
def handle_key_release (s : GameState) (lane : Nat) (now : ℚ) : GameState :=
  let r := relGo lane now s.notes s
  { r.2 with notes := r.1 }

/-- Fire condition of `check_ln_hold_integrity` (game.rs:461-469): active
long note of the lane, inside `[start_time, end_time)`, key not held. -/
def holdFires (lane : Nat) (is_holding : Bool) (now : ℚ) (n : Note) : Bool :=
  decide (n.lane = lane) && n.is_ln && n.ln_head_hit && !n.ln_completed &&
    !n.ln_hold_broken && decide (n.start_time ≤ now) && decide (now < n.end_time) &&
    !is_holding

/-- The note update of a hold break (game.rs:471-473). -/
def breakHold (n : Note) : Note :=
  { n with
    ln_hold_broken := true
    ln_completed := true
    ln_tail_judgment := some HitJudgment.Miss }

/-- The loop of `check_ln_hold_integrity` (game.rs:460-482), threading the
session scalars it mutates (game.rs:474-478). -/
def holdGo (lane : Nat) (is_holding : Bool) (now : ℚ) :
    List Note → GameState → List Note × GameState
  | [], s => ([], s)
  | n :: rest, s =>
    if holdFires lane is_holding now n then
      let r := holdGo lane is_holding now rest
        { s with
          combo := 0
          last_judgment := "MISS"
          judgment_color := HitJudgment.Miss
          judgment_time := now
          hit_counts := { s.hit_counts with miss := s.hit_counts.miss + 1 } }
      (breakHold n :: r.1, r.2)
    else
      let r := holdGo lane is_holding now rest s
      (n :: r.1, r.2)

/-- `check_ln_hold_integrity` on the state. -/
def check_ln_hold_integrity (s : GameState) (lane : Nat) (is_holding : Bool)
    (now : ℚ) : GameState :=
  let r := holdGo lane is_holding now s.notes s
  { r.2 with notes := r.1 }

/-- The LN-head miss update (game.rs:491-494). -/
def missLNHead (n : Note) : Note :=
  { n with
    missed := true
    ln_completed := true
    ln_head_judgment := some HitJudgment.Miss
    ln_tail_judgment := some HitJudgment.Miss }

/-- The LN-tail miss update (game.rs:503-505). -/
def missLNTail (n : Note) : Note :=
  { n with
    missed := true
    ln_completed := true
    ln_tail_judgment := some HitJudgment.Miss }

/-- One note of `check_missed_notes` (game.rs:484-524): the updated note
together with how many misses it contributes (`2` for a forfeited long
note, `1` for a timed-out tail or a missed tap, `0` otherwise). -/
def miss_step (now : ℚ) (n : Note) : Note × Nat :=
  if n.missed then (n, 0)
  else if n.is_ln then
    if !n.ln_head_hit && decide (n.start_time - now < -OK_WINDOW) then
      (missLNHead n, 2)
    else if n.ln_head_hit && !n.ln_completed && decide (n.end_time - now < -OK_WINDOW) then
      (missLNTail n, 1)
    else (n, 0)
  else
    if !n.hit && decide (n.start_time - now < -OK_WINDOW) then
      ({ n with missed := true }, 1)
    else (n, 0)

/-- The scalar mutations of one firing iteration of `check_missed_notes`
(game.rs:495-499, 506-510, 516-520). -/
def missScalars (s : GameState) (now : ℚ) (k : Nat) : GameState :=
  { s with
    combo := 0
    last_judgment := "MISS"
    judgment_color := HitJudgment.Miss
    judgment_time := now
    hit_counts := { s.hit_counts with miss := s.hit_counts.miss + (k : Int) } }

/-- The loop of `check_missed_notes`. -/
def missGo (now : ℚ) : List Note → GameState → List Note × GameState
  | [], s => ([], s)
  | n :: rest, s =>
    let p := miss_step now n
    let s' := if p.2 = 0 then s else missScalars s now p.2
    let r := missGo now rest s'
    (p.1 :: r.1, r.2)

/-- `check_missed_notes` on the state. -/
def check_missed_notes (s : GameState) (now : ℚ) : GameState :=
  let r := missGo now s.notes s
  { r.2 with notes := r.1 }

/-- Commands sent to the audio collaborator by the slider-sound pass
(game.rs:165, 177: `stop_slider(lane)` / `play_slider_start(lane)`). -/
inductive SliderCmd where
  | startLoop (lane : Nat)
  | stopLoop (lane : Nat)
deriving DecidableEq

/-- One note of the slider-sound pass (game.rs:159-182): a non-long note
is skipped; a long note that is not actively held back (dead head, done,
or broken) stops a playing sound; an actively held long note inside
`[start_time, end_time)` starts the sound; otherwise nothing happens. -/
def slider_step (now : ℚ) (n : Note) : Note × Option SliderCmd :=
  if !n.is_ln then (n, none)
  else if !n.ln_head_hit || n.ln_completed || n.ln_hold_broken then
    if n.slider_sound_playing then
      ({ n with slider_sound_playing := false }, some (SliderCmd.stopLoop n.lane))
    else (n, none)
  else if decide (n.start_time ≤ now) && decide (now < n.end_time) then
    if !n.slider_sound_playing then
      ({ n with slider_sound_playing := true }, some (SliderCmd.startLoop n.lane))
    else (n, none)
  else (n, none)

/-- The spec's desired loop-on condition (§4.5): head held and inside the
hold window. -/
def slider_desired (now : ℚ) (n : Note) : Bool :=
  n.ln_head_hit && !n.ln_completed && !n.ln_hold_broken &&
    decide (n.start_time ≤ now) && decide (now < n.end_time)

/-- The whole slider-sound pass on the state (only the notes' sound flags
change; the commands go to the audio collaborator). -/
def slider_sound_pass (s : GameState) (now : ℚ) : GameState :=
  { s with notes := s.notes.map fun n => (slider_step now n).1 }

/-- The per-frame judgment passes of `update_and_draw` (game.rs:137-185),
in source order: presses, releases, hold integrity per lane with that
lane's key state, slider sounds, miss sweep.  `presses` / `releases` are
the lanes whose keys fired this frame; `held l` is `is_key_down` of lane
`l`'s key. -/
def update_passes (s : GameState) (presses releases : List Nat)
    (held : Nat → Bool) (now : ℚ) : GameState :=
  let s1 := presses.foldl (fun st l => handle_key_press st l now) s
  let s2 := releases.foldl (fun st l => handle_key_release st l now) s1
  let s3 := (List.range s2.key_count).foldl
    (fun st l => check_ln_hold_integrity st l (held l) now) s2
  let s4 := slider_sound_pass s3 now
  check_missed_notes s4 now

/-! ## Results screen (game.rs, `draw_results_screen`) -/

/-- The accuracy computed on the results screen (game.rs:576-589). -/
def accuracy (h : HitCounts) : ℚ :=
  let total_objects : ℚ := ((h.perfect + h.great + h.good + h.ok + h.miss : Int) : ℚ)
  if 0 < total_objects then
    ((300 : ℚ) * (h.perfect : ℚ) + 200 * (h.great : ℚ) + 100 * (h.good : ℚ) +
        50 * (h.ok : ℚ)) / (300 * total_objects) * 100
  else 0

/-- The spec's accuracy formula (§4.4), written from its words for
comparison with the source computation. -/
def accuracy_spec (h : HitCounts) : ℚ :=
  let total_judged : Int := h.perfect + h.great + h.good + h.ok + h.miss
  let weighted : Int := 300 * h.perfect + 200 * h.great + 100 * h.good + 50 * h.ok
  if 0 < total_judged then (weighted : ℚ) / (300 * (total_judged : ℚ)) * 100 else 0

/-! ## Spec-side definitions and proof-side predicates -/

/-- The spec's carried beat length (§3): the value of the most recent
*input line* with a positive encoded value, `500.0` if none precedes. -/
def lastUninheritedBeat (ls : List (ℚ × ℚ)) : ℚ :=
  ((ls.reverse.find? fun l => decide (0 < l.2)).map fun l => l.2).getD 500

/-- Forward-fold form of the carried beat length, used to push it through
`buildTimingPoints`. -/
def carryFold (d : ℚ) (ls : List (ℚ × ℚ)) : ℚ :=
  ls.foldl (fun d l => if 0 < l.2 then l.2 else d) d

/-- Invariant of the press-selection loop: what the accumulator says
about the prefix of the note list before `bound`.  An empty accumulator
means no candidate was seen; a `some (k, d)` records an eligible note at
`k` with offset `d` that is minimal over the prefix and strictly smaller
than every eligible offset before `k` (ties keep the first note). -/
def GoodAcc (lane : Nat) (now : ℚ) (notes : List Note) :
    Option (Nat × ℚ) → Nat → Prop
  | none, bound => ∀ j, j < bound → ∀ n, notes[j]? = some n → isCand lane now n = false
  | some (k, d), bound =>
      k < bound ∧
      (∃ n, notes[k]? = some n ∧ isCand lane now n = true ∧ d = |n.start_time - now|) ∧
      (∀ j, j < bound → ∀ n, notes[j]? = some n → isCand lane now n = true →
        d ≤ |n.start_time - now|) ∧
      (∀ j, j < k → ∀ n, notes[j]? = some n → isCand lane now n = true →
        d < |n.start_time - now|)

/-- `f` keeps every broken long note broken, position by position; used to
state that a hold break is permanent across frames. -/
def preservesBroken (f : GameState → GameState) : Prop :=
  ∀ (s : GameState) (j : Nat) (m : Note), s.notes[j]? = some m →
    m.ln_hold_broken = true →
    ∃ m2, (f s).notes[j]? = some m2 ∧ m2.ln_hold_broken = true

/-! ## Concrete instances used by counterexamples and witnesses -/

/-- A tap-object line (`type = 1`, five fields) at 1000 ms. -/
def c1TapLine : HitObjLine :=
  { len := 5, x := 256, time_ms := 1000, obj_type := 1, endTimeField := 0,
    slides := 1, pixel_length := 0 }

/-- A long note over `[0s, 1s)` in lane 0 whose head was hit and whose
loop sound is playing. -/
def c9Note : Note :=
  { start_time := 0, end_time := 1, lane := 0, hit := false, missed := false,
    is_ln := true, ln_head_hit := true, ln_hold_broken := false,
    ln_completed := false, ln_head_judgment := some HitJudgment.Perfect,
    ln_tail_judgment := none, slider_sound_playing := true }

/-- Like `c9Note` but with the loop sound not yet playing. -/
def c9NoteQuiet : Note := { c9Note with slider_sound_playing := false }

/-- A held long note over `[0s, 1s)` whose loop sound is off. -/
def c4Note : Note := { c9Note with slider_sound_playing := false }

/-- A session holding just `c4Note`, right after its head was judged. -/
def c4State : GameState :=
  { notes := [c4Note], score := 300, combo := 1, last_judgment := "PERFECT",
    judgment_color := HitJudgment.Perfect, judgment_time := 0, key_count := 4,
    last_input_delay := 0,
    hit_counts := { perfect := 1, great := 0, good := 0, ok := 0, miss := 0 } }

/-- An untouched tap note at 2 s in lane 0. -/
def wTapNote : Note :=
  { start_time := 2, end_time := 0, lane := 0, hit := false, missed := false,
    is_ln := false, ln_head_hit := false, ln_hold_broken := false,
    ln_completed := false, ln_head_judgment := none, ln_tail_judgment := none,
    slider_sound_playing := false }

/-- A fresh session holding just `wTapNote`. -/
def wTapState : GameState :=
  { notes := [wTapNote], score := 0, combo := 0, last_judgment := "",
    judgment_color := HitJudgment.Perfect, judgment_time := -1, key_count := 4,
    last_input_delay := 0,
    hit_counts := { perfect := 0, great := 0, good := 0, ok := 0, miss := 0 } }

/-- An untouched long note over `[5s, 6s)` in lane 1. -/
def c5Note : Note :=
  { start_time := 5, end_time := 6, lane := 1, hit := false, missed := false,
    is_ln := true, ln_head_hit := false, ln_hold_broken := false,
    ln_completed := false, ln_head_judgment := none, ln_tail_judgment := none,
    slider_sound_playing := false }

/-- A fresh session holding just `c5Note`. -/
def c5State : GameState := { wTapState with notes := [c5Note] }

/-! ## Timing-point lemmas -/

theorem storedCarry_pos (acc : List (ℚ × ℚ × ℚ)) : 0 < storedCarry acc := by
  unfold storedCarry
  cases hf : acc.reverse.find? fun p => decide (0 < p.2.1) with
  | none => norm_num
  | some p =>
    have := List.find?_some hf
    simp only [decide_eq_true_eq] at this
    simpa using this

theorem storedCarry_tpStep (acc : List (ℚ × ℚ × ℚ)) (l : ℚ × ℚ) :
    storedCarry (tpStep acc l) = if 0 < l.2 then l.2 else storedCarry acc := by
  by_cases h : 0 < l.2
  · simp [tpStep, storedCarry, List.reverse_append, h]
  · have hp := storedCarry_pos acc
    simp only [storedCarry] at hp
    simp [tpStep, storedCarry, List.reverse_append, h, hp]

theorem storedCarry_foldl (ls : List (ℚ × ℚ)) :
    ∀ acc, storedCarry (ls.foldl tpStep acc) = carryFold (storedCarry acc) ls := by
  induction ls with
  | nil => intro acc; rfl
  | cons l ls ih =>
    intro acc
    simp only [List.foldl_cons, carryFold, ih (tpStep acc l), storedCarry_tpStep]

theorem lastUninheritedBeat_carryFold (ls : List (ℚ × ℚ)) :
    lastUninheritedBeat ls = carryFold 500 ls := by
  suffices h : ∀ d, carryFold d ls =
      ((ls.reverse.find? fun l => decide (0 < l.2)).map fun l => l.2).getD d by
    rw [lastUninheritedBeat, h 500]
  induction ls with
  | nil => intro d; rfl
  | cons l ls ih =>
    intro d
    simp only [carryFold, List.foldl_cons, List.reverse_cons]
    rw [show (ls.foldl (fun d l => if 0 < l.2 then l.2 else d)
        (if 0 < l.2 then l.2 else d)) = carryFold (if 0 < l.2 then l.2 else d) ls from rfl,
      ih (if 0 < l.2 then l.2 else d), List.find?_append]
    cases hf : ls.reverse.find? fun l => decide (0 < l.2) with
    | some p => simp [hf]
    | none =>
      by_cases h : 0 < l.2 <;> simp [hf, h]

theorem storedCarry_build (ls : List (ℚ × ℚ)) :
    storedCarry (buildTimingPoints ls) = lastUninheritedBeat ls := by
  rw [buildTimingPoints, storedCarry_foldl ls [], lastUninheritedBeat_carryFold]
  rfl

theorem buildTimingPoints_append (ls : List (ℚ × ℚ)) (l : ℚ × ℚ) :
    buildTimingPoints (ls ++ [l]) = tpStep (buildTimingPoints ls) l := by
  simp [buildTimingPoints, List.foldl_append]

/-! ## Claim theorems: parsing and scoring -/

/-- C7: a positive timing-point value `V` stores `(time, V, 1.0)`; a
negative `V` stores the most recent uninherited beat length (`500.0` if
none precedes) with `velocity_multiplier = -100.0 / V`; in particular
`V = -50` gives multiplier `2.0` and `V = -200` gives `0.5`. -/
theorem C7_timing_point_build : ∀ (ls : List (ℚ × ℚ)) (t V : ℚ),
    (0 < V → buildTimingPoints (ls ++ [(t, V)]) = buildTimingPoints ls ++ [(t, V, 1)]) ∧
    (V < 0 → buildTimingPoints (ls ++ [(t, V)]) =
      buildTimingPoints ls ++ [(t, lastUninheritedBeat ls, -100 / V)]) ∧
    buildTimingPoints [(0, -50)] = [(0, 500, 2)] ∧
    buildTimingPoints [(0, -200)] = [(0, 500, 1/2)] := by
  intro ls t V
  refine ⟨?_, ?_, ?_, ?_⟩
  · intro h
    rw [buildTimingPoints_append, tpStep, if_pos h]
  · intro h
    rw [buildTimingPoints_append, tpStep, if_neg (not_lt.2 h.le), storedCarry_build]
  · norm_num [buildTimingPoints, tpStep, storedCarry]
  · norm_num [buildTimingPoints, tpStep, storedCarry]

/-- Witness for C7 at a concrete chart: an uninherited `600` line followed
by an inherited `-50` line. -/
theorem C7_timing_point_build_witness :
    buildTimingPoints ([((0 : ℚ), (600 : ℚ))] ++ [(5, -50)]) =
      buildTimingPoints [((0 : ℚ), (600 : ℚ))] ++
        [(5, lastUninheritedBeat [((0 : ℚ), (600 : ℚ))], -100 / -50)] :=
  (C7_timing_point_build [(0, 600)] 5 (-50)).2.1 (by norm_num)

/-- C6: the results-screen accuracy equals the spec's weighted formula,
and one Perfect plus one Miss gives exactly 50. -/
theorem C6_accuracy_formula :
    (∀ h : HitCounts, accuracy h = accuracy_spec h) ∧
    accuracy { perfect := 1, great := 0, good := 0, ok := 0, miss := 1 } = 50 := by
  constructor
  · intro h
    simp only [accuracy, accuracy_spec]
    by_cases hpos : (0 : Int) < h.perfect + h.great + h.good + h.ok + h.miss
    · rw [if_pos (by exact_mod_cast hpos), if_pos hpos]
      push_cast
      ring
    · rw [if_neg (by exact_mod_cast hpos), if_neg hpos]
  · norm_num [accuracy]

/-- C8: the `[Events]` background scan panics (modelled by `none`) on a
line that opens a quote and never closes it, while a well-formed line is
extracted; the claim that every malformed Events line degrades to a
default without aborting fails at this input. -/
theorem C8_events_line_panics :
    parseEventsBgLine ("0,0,\"bg.png".data) = none ∧
    parseEventsBgLine ("0,0,\"bg.png\",0,0".data) = some (some ("bg.png".data)) := by
  constructor <;> rfl

/-- C9 counterexample: a long note still in the `head_hit && !completed &&
!hold_broken` configuration at `now = end_time` has desired loop-on false
and its sound flag still set, yet the pass emits no stop command and
leaves the flag untouched. -/
theorem C9_counterexample :
    slider_desired 1 c9Note = false ∧
    c9Note.slider_sound_playing = true ∧
    slider_step 1 c9Note = (c9Note, none) := by
  refine ⟨by decide, by decide, ?_⟩
  simp [slider_step, c9Note]

/-- C9 amended: per long note each frame, if the desired loop-on holds and
the flag is off, a start command is emitted and the flag set; if the note
left the `head_hit && !completed && !hold_broken` configuration with the
flag on, a stop command is emitted and the flag cleared; but a note still
in that configuration with `now` outside `[start_time, end_time)` is left
untouched and emits nothing (the stop is deferred until the note leaves
the configuration). -/
theorem C9_slider_sound_amended : ∀ (now : ℚ) (n : Note),
    (n.is_ln = true → slider_desired now n = true → n.slider_sound_playing = false →
      slider_step now n =
        ({ n with slider_sound_playing := true }, some (SliderCmd.startLoop n.lane))) ∧
    (n.is_ln = true → (n.ln_head_hit && !n.ln_completed && !n.ln_hold_broken) = false →
      n.slider_sound_playing = true →
      slider_step now n =
        ({ n with slider_sound_playing := false }, some (SliderCmd.stopLoop n.lane))) ∧
    (n.is_ln = true → (n.ln_head_hit && !n.ln_completed && !n.ln_hold_broken) = true →
      ¬(n.start_time ≤ now ∧ now < n.end_time) →
      slider_step now n = (n, none)) := by
  intro now n
  refine ⟨?_, ?_, ?_⟩
  · intro hl hd hq
    simp only [slider_desired, Bool.and_eq_true, Bool.not_eq_true',
      decide_eq_true_eq] at hd
    obtain ⟨⟨⟨⟨hh, hc⟩, hb⟩, hs⟩, he⟩ := hd
    simp [slider_step, hl, hh, hc, hb, hs, he, hq]
  · intro hl hd hq
    have hcond : (!n.ln_head_hit || n.ln_completed || n.ln_hold_broken) = true := by
      cases hhh : n.ln_head_hit <;> cases hcc : n.ln_completed <;>
        cases hbb : n.ln_hold_broken <;> simp_all
    simp [slider_step, hl, hcond, hq]
  · intro hl hd hq
    simp only [Bool.and_eq_true, Bool.not_eq_true'] at hd
    obtain ⟨⟨hh, hc⟩, hb⟩ := hd
    have hw : (decide (n.start_time ≤ now) && decide (now < n.end_time)) = false := by
      by_cases h1 : n.start_time ≤ now
      · have h2 : ¬now < n.end_time := fun h2 => hq ⟨h1, h2⟩
        simp [h2]
      · simp [h1]
    simp [slider_step, hl, hh, hc, hb, hw]

/-- Witness for C9 at a concrete input: the quiet held note gets a start
command mid-hold. -/
theorem C9_slider_sound_amended_witness :
    slider_step (1/2) c9NoteQuiet =
      ({ c9NoteQuiet with slider_sound_playing := true },
        some (SliderCmd.startLoop c9NoteQuiet.lane)) :=
  (C9_slider_sound_amended (1/2) c9NoteQuiet).1 (by decide) (by norm_num [slider_desired, c9NoteQuiet, c9Note]) (by decide)

/-- C1 counterexample: a tap line (`type = 1`) at 1000 ms parses to a note
with `start_time = 1` and `end_time = 0`, so `end_time ≥ start_time` fails
and `end_time = start_time` fails. -/
theorem C1_counterexample :
    ((buildNote [(0, 500, 1)] (7/5) 4 c1TapLine).map fun n => (n.start_time, n.end_time)) =
      some (1, 0) ∧
    ((buildNote [(0, 500, 1)] (7/5) 4 c1TapLine).map fun n =>
      decide (n.start_time ≤ n.end_time)) = some false := by
  have h : buildNote [(0, 500, 1)] (7/5) 4 c1TapLine = some
      { start_time := 1, end_time := 0, lane := 2, hit := false, missed := false,
        is_ln := false, ln_head_hit := false, ln_hold_broken := false,
        ln_completed := false, ln_head_judgment := none, ln_tail_judgment := none,
        slider_sound_playing := false } := by
    rw [buildNote, if_neg (by norm_num [c1TapLine])]
    norm_num [c1TapLine, is_hold_bit, is_slider_bit, laneOf, MIN_LN_DURATION]
    rfl
  rw [h]
  norm_num

/-- C1 amended: a hit-object line with at least four fields and neither
the hold bit nor the slider bit set parses to a note with
`end_time = 0` seconds (not `start_time`), hence `end_time ≥ start_time`
fails whenever the tap's `start_time` is positive. -/
theorem C1_tap_end_time_amended : ∀ (tps : List (ℚ × ℚ × ℚ)) (sm : ℚ) (kc : Nat)
    (L : HitObjLine), 4 ≤ L.len → is_hold_bit L.obj_type = false →
    is_slider_bit L.obj_type = false →
    ∃ n, buildNote tps sm kc L = some n ∧ n.end_time = 0 ∧
      n.start_time = L.time_ms / 1000 ∧
      (0 < L.time_ms → ¬(n.end_time ≥ n.start_time)) := by
  intro tps sm kc L hlen hh hs
  have hnote : buildNote tps sm kc L = some
      { start_time := L.time_ms / 1000, end_time := 0 / 1000, lane := laneOf L.x kc,
        hit := false, missed := false,
        is_ln := decide (MIN_LN_DURATION ≤ 0 / 1000 - L.time_ms / 1000),
        ln_head_hit := false, ln_hold_broken := false, ln_completed := false,
        ln_head_judgment := none, ln_tail_judgment := none,
        slider_sound_playing := false } := by
    rw [buildNote, if_neg (by omega)]
    simp [hh, hs]
  refine ⟨_, hnote, by norm_num, by norm_num, ?_⟩
  intro ht
  have hpos : (0 : ℚ) < L.time_ms / 1000 := div_pos ht (by norm_num)
  simp only [not_le]
  simpa using hpos

/-- Witness for C1 at the concrete tap line. -/
theorem C1_tap_end_time_amended_witness :
    ∃ n, buildNote [] 1 4 c1TapLine = some n ∧ n.end_time = 0 ∧
      n.start_time = c1TapLine.time_ms / 1000 ∧
      (0 < c1TapLine.time_ms → ¬(n.end_time ≥ n.start_time)) :=
  C1_tap_end_time_amended [] 1 4 c1TapLine (by decide) (by decide) (by decide)

/-! ## Press-selection lemmas -/

theorem getElem?_lt_length {α : Type} (l : List α) (i : Nat) (a : α)
    (h : l[i]? = some a) : i < l.length := by
  rw [List.getElem?_eq_some] at h
  exact h.1

theorem rabs_eq_abs (q : ℚ) : rabs q = |q| := by
  rw [rabs]
  split_ifs with h
  · exact (abs_of_neg h).symm
  · exact (abs_of_nonneg (not_lt.1 h)).symm

theorem GoodAcc_succ_notcand (lane : Nat) (now : ℚ) (notes : List Note) (i : Nat)
    (n : Note) (acc : Option (Nat × ℚ)) (hi : notes[i]? = some n)
    (hc : isCand lane now n = false) (h : GoodAcc lane now notes acc i) :
    GoodAcc lane now notes acc (i + 1) := by
  match acc with
  | none =>
    intro j hj m hm
    rcases Nat.lt_succ_iff_lt_or_eq.1 hj with hj' | rfl
    · exact h j hj' m hm
    · rw [hm] at hi
      obtain rfl := Option.some_inj.1 hi
      exact hc
  | some (k, c) =>
    obtain ⟨h1, h2, h3, h4⟩ := h
    refine ⟨Nat.lt_succ_of_lt h1, h2, ?_, h4⟩
    intro j hj m hm hcand
    rcases Nat.lt_succ_iff_lt_or_eq.1 hj with hj' | rfl
    · exact h3 j hj' m hm hcand
    · rw [hm] at hi
      obtain rfl := Option.some_inj.1 hi
      rw [hc] at hcand
      cases hcand

theorem GoodAcc_succ_cand_none (lane : Nat) (now : ℚ) (notes : List Note) (i : Nat)
    (n : Note) (hi : notes[i]? = some n) (hc : isCand lane now n = true)
    (h : GoodAcc lane now notes none i) :
    GoodAcc lane now notes (some (i, |n.start_time - now|)) (i + 1) := by
  refine ⟨Nat.lt_succ_self i, ⟨n, hi, hc, rfl⟩, ?_, ?_⟩
  · intro j hj m hm hcand
    rcases Nat.lt_succ_iff_lt_or_eq.1 hj with hj' | rfl
    · rw [h j hj' m hm] at hcand
      cases hcand
    · rw [hm] at hi
      obtain rfl := Option.some_inj.1 hi
      exact le_refl _
  · intro j hj m hm hcand
    rw [h j hj m hm] at hcand
    cases hcand

theorem GoodAcc_succ_cand_lt (lane : Nat) (now : ℚ) (notes : List Note) (i k : Nat)
    (n : Note) (c : ℚ) (hi : notes[i]? = some n) (hc : isCand lane now n = true)
    (h : GoodAcc lane now notes (some (k, c)) i)
    (hlt : |n.start_time - now| < c) :
    GoodAcc lane now notes (some (i, |n.start_time - now|)) (i + 1) := by
  obtain ⟨h1, h2, h3, h4⟩ := h
  refine ⟨Nat.lt_succ_self i, ⟨n, hi, hc, rfl⟩, ?_, ?_⟩
  · intro j hj m hm hcand
    rcases Nat.lt_succ_iff_lt_or_eq.1 hj with hj' | rfl
    · exact le_of_lt (lt_of_lt_of_le hlt (h3 j hj' m hm hcand))
    · rw [hm] at hi
      obtain rfl := Option.some_inj.1 hi
      exact le_refl _
  · intro j hj m hm hcand
    exact lt_of_lt_of_le hlt (h3 j hj m hm hcand)

theorem GoodAcc_succ_cand_ge (lane : Nat) (now : ℚ) (notes : List Note) (i k : Nat)
    (n : Note) (c : ℚ) (hi : notes[i]? = some n) (hc : isCand lane now n = true)
    (h : GoodAcc lane now notes (some (k, c)) i)
    (hge : c ≤ |n.start_time - now|) :
    GoodAcc lane now notes (some (k, c)) (i + 1) := by
  obtain ⟨h1, h2, h3, h4⟩ := h
  refine ⟨Nat.lt_succ_of_lt h1, h2, ?_, h4⟩
  intro j hj m hm hcand
  rcases Nat.lt_succ_iff_lt_or_eq.1 hj with hj' | rfl
  · exact h3 j hj' m hm hcand
  · rw [hm] at hi
    obtain rfl := Option.some_inj.1 hi
    exact hge

theorem GoodAcc_selStep (lane : Nat) (now : ℚ) (notes : List Note) (i : Nat)
    (n : Note) (acc : Option (Nat × ℚ)) (hi : notes[i]? = some n)
    (hacc : GoodAcc lane now notes acc i) :
    GoodAcc lane now notes (selStep lane now i acc n) (i + 1) := by
  by_cases hc : isCand lane now n
  · rcases acc with _ | ⟨k, c⟩
    · rw [selStep, if_pos hc]
      simp only [rabs_eq_abs]
      exact GoodAcc_succ_cand_none lane now notes i n hi hc hacc
    · by_cases hlt : |n.start_time - now| < c
      · rw [selStep, if_pos hc]
        simp only [rabs_eq_abs, if_pos hlt]
        exact GoodAcc_succ_cand_lt lane now notes i k n c hi hc hacc hlt
      · rw [selStep, if_pos hc]
        simp only [rabs_eq_abs, if_neg hlt]
        exact GoodAcc_succ_cand_ge lane now notes i k n c hi hc hacc (not_lt.1 hlt)
  · rw [selStep, if_neg hc]
    exact GoodAcc_succ_notcand lane now notes i n acc hi
      (Bool.not_eq_true _ ▸ hc) hacc

theorem findClosestAux_good (lane : Nat) (now : ℚ) (notes : List Note) :
    ∀ (ns : List Note) (i : Nat) (acc : Option (Nat × ℚ)),
    (∀ j, ns[j]? = notes[i + j]?) →
    GoodAcc lane now notes acc i →
    GoodAcc lane now notes (findClosestAux lane now i acc ns) (i + ns.length) := by
  intro ns
  induction ns with
  | nil =>
    intro i acc _ hacc
    simpa [findClosestAux] using hacc
  | cons n rest ih =>
    intro i acc hdrop hacc
    have hi : notes[i]? = some n := by
      have := hdrop 0
      simpa using this.symm
    have hdrop' : ∀ j, rest[j]? = notes[i + 1 + j]? := by
      intro j
      have := hdrop (j + 1)
      simpa [Nat.add_assoc, Nat.add_comm 1 j] using this
    have hstep := GoodAcc_selStep lane now notes i n acc hi hacc
    have := ih (i + 1) _ hdrop' hstep
    rw [findClosestAux]
    simpa [Nat.add_assoc, Nat.add_comm 1 rest.length] using this

theorem findClosest_good (lane : Nat) (now : ℚ) (notes : List Note) :
    GoodAcc lane now notes (findClosest lane now notes) notes.length := by
  have h0 : ∀ j : Nat, notes[j]? = notes[0 + j]? := by intro j; simp
  have hni : GoodAcc lane now notes none 0 := by
    intro j hj m _
    exact absurd hj (Nat.not_lt_zero j)
  have h := findClosestAux_good lane now notes notes 0 none h0 hni
  simpa [findClosest] using h

theorem HitCounts.bump_miss (h : HitCounts) (j : HitJudgment) :
    (h.bump j).miss = h.miss := by
  cases j <;> rfl

/-- C3: the note selected on a press is an eligible note of the lane with
offset strictly inside the Ok window and minimal absolute offset; any
eligible earlier note has a strictly larger offset (ties keep the first
note encountered); the chosen offset classifies Perfect up to 0.040s,
Great up to 0.075s, Good up to 0.110s, Ok up to 0.135s; and whenever some
eligible note of the lane sits exactly at `now`, the chosen offset
classifies Perfect. -/
theorem C3_press_selection : ∀ (notes : List Note) (lane : Nat) (now : ℚ)
    (idx : Nat) (d : ℚ), findClosest lane now notes = some (idx, d) →
    (∃ n, notes[idx]? = some n ∧ n.lane = lane ∧ canHit n = true ∧
      d = |n.start_time - now| ∧ d < OK_WINDOW) ∧
    (∀ (j : Nat) (m : Note), notes[j]? = some m → m.lane = lane →
      canHit m = true →
      |m.start_time - now| < OK_WINDOW → d ≤ |m.start_time - now|) ∧
    (∀ (j : Nat) (m : Note), j < idx → notes[j]? = some m → m.lane = lane →
      canHit m = true →
      |m.start_time - now| < OK_WINDOW → d < |m.start_time - now|) ∧
    (d ≤ 0.040 → HitJudgment.from_timing d = HitJudgment.Perfect) ∧
    (0.040 < d → d ≤ 0.075 → HitJudgment.from_timing d = HitJudgment.Great) ∧
    (0.075 < d → d ≤ 0.110 → HitJudgment.from_timing d = HitJudgment.Good) ∧
    (0.110 < d → d ≤ 0.135 → HitJudgment.from_timing d = HitJudgment.Ok) ∧
    ((∃ (j : Nat) (m : Note), notes[j]? = some m ∧ m.lane = lane ∧
        canHit m = true ∧ m.start_time = now) →
      HitJudgment.from_timing d = HitJudgment.Perfect) := by
  intro notes lane now idx d hsel
  have hg := findClosest_good lane now notes
  rw [hsel] at hg
  obtain ⟨hb, ⟨n, hn, hcand, hd⟩, hmin, hstrict⟩ := hg
  have hcand' := hcand
  simp only [isCand, Bool.and_eq_true, decide_eq_true_eq, rabs_eq_abs] at hcand'
  obtain ⟨⟨hlane, hch⟩, hwin⟩ := hcand'
  refine ⟨⟨n, hn, hlane, hch, hd, hd ▸ hwin⟩, ?_, ?_, ?_, ?_, ?_, ?_, ?_⟩
  · intro j m hm hml hmc hmw
    exact hmin j (getElem?_lt_length notes j m hm) m hm
      (by simp [isCand, rabs_eq_abs, hml, hmc, hmw])
  · intro j m hj hm hml hmc hmw
    exact hstrict j hj m hm (by simp [isCand, rabs_eq_abs, hml, hmc, hmw])
  · intro h1
    rw [HitJudgment.from_timing, if_pos h1]
  · intro h1 h2
    rw [HitJudgment.from_timing, if_neg (by linarith), if_pos h2]
  · intro h1 h2
    rw [HitJudgment.from_timing, if_neg (by linarith), if_neg (by linarith),
      if_pos h2]
  · intro h1 h2
    rw [HitJudgment.from_timing, if_neg (by linarith), if_neg (by linarith),
      if_neg (by linarith), if_pos h2]
  · rintro ⟨j, m, hm, hml, hmc, hms⟩
    have h0 : |m.start_time - now| = 0 := by
      rw [hms]
      simp
    have hle := hmin j (getElem?_lt_length notes j m hm) m hm
      (by
        simp only [isCand, Bool.and_eq_true, decide_eq_true_eq, rabs_eq_abs]
        refine ⟨⟨hml, hmc⟩, ?_⟩
        rw [h0, OK_WINDOW]
        norm_num)
    rw [h0] at hle
    have hd0 : d = 0 := le_antisymm hle (hd ▸ abs_nonneg _)
    rw [hd0, HitJudgment.from_timing, if_pos (by norm_num)]

/-- Witness for C3 at a concrete press: one tap note at 2 s, pressed at
exactly 2 s, classifies Perfect. -/
theorem C3_press_selection_witness :
    HitJudgment.from_timing (0 : ℚ) = HitJudgment.Perfect :=
  (C3_press_selection [wTapNote] 0 2 0 0
    (by norm_num [findClosest, findClosestAux, selStep, isCand, canHit, wTapNote,
      OK_WINDOW, rabs])).2.2.2.1 (by norm_num)

/-- C10: a press whose lane has no eligible note inside the window leaves
the whole session unchanged — in particular no miss is counted and the
combo is untouched; a press that selects a note changes exactly that
note's judgment flags, combo (+1), score (+ tier value), one non-miss
hit-count bucket, and the judgment-display fields, leaving every other
note in place. -/
theorem C10_press_frame_effect : ∀ (s : GameState) (lane : Nat) (now : ℚ),
    (findClosest lane now s.notes = none → handle_key_press s lane now = s) ∧
    (∀ idx d, findClosest lane now s.notes = some (idx, d) →
      ∃ n jdg, s.notes[idx]? = some n ∧
        jdg = HitJudgment.from_timing |n.start_time - now| ∧
        jdg ≠ HitJudgment.Miss ∧
        (s.hit_counts.bump jdg).miss = s.hit_counts.miss ∧
        handle_key_press s lane now =
          { s with
            notes := s.notes.set idx
              (if n.is_ln then
                { n with ln_head_hit := true, ln_head_judgment := some jdg }
              else { n with hit := true })
            combo := s.combo + 1
            score := s.score + jdg.score_value
            hit_counts := s.hit_counts.bump jdg
            last_judgment := jdg.text
            judgment_color := jdg
            judgment_time := now
            last_input_delay := (n.start_time - now) * 1000 } ∧
        (∀ j, j ≠ idx → (handle_key_press s lane now).notes[j]? = s.notes[j]?)) := by
  intro s lane now
  constructor
  · intro hnone
    simp [handle_key_press, hnone]
  · intro idx d hsel
    have hg := findClosest_good lane now s.notes
    rw [hsel] at hg
    obtain ⟨hb, ⟨n, hn, hcand, hd⟩, hmin, hstrict⟩ := hg
    have hcand' := hcand
    simp only [isCand, Bool.and_eq_true, decide_eq_true_eq, rabs_eq_abs] at hcand'
    obtain ⟨⟨hlane, hch⟩, hwin⟩ := hcand'
    have hne : HitJudgment.from_timing |n.start_time - now| ≠ HitJudgment.Miss := by
      rw [OK_WINDOW] at hwin
      rw [HitJudgment.from_timing]
      split_ifs <;> simp_all
      linarith
    have heq : handle_key_press s lane now =
        { s with
          notes := s.notes.set idx
            (if n.is_ln then
              { n with
                ln_head_hit := true
                ln_head_judgment := some (HitJudgment.from_timing |n.start_time - now|) }
            else { n with hit := true })
          combo := s.combo + 1
          score := s.score + (HitJudgment.from_timing |n.start_time - now|).score_value
          hit_counts := s.hit_counts.bump (HitJudgment.from_timing |n.start_time - now|)
          last_judgment := (HitJudgment.from_timing |n.start_time - now|).text
          judgment_color := HitJudgment.from_timing |n.start_time - now|
          judgment_time := now
          last_input_delay := (n.start_time - now) * 1000 } := by
      simp only [handle_key_press, hsel, hn, rabs_eq_abs]
      rw [if_neg hne]
      by_cases hln : n.is_ln
      · simp [hln]
      · simp [hln]
    refine ⟨n, HitJudgment.from_timing |n.start_time - now|, hn, rfl, hne,
      HitCounts.bump_miss s.hit_counts _, heq, ?_⟩
    intro j hj
    rw [heq]
    exact List.getElem?_set_ne (Ne.symm hj)

/-! ## Hold-integrity pass lemmas -/

theorem holdGo_fst (lane : Nat) (h : Bool) (now : ℚ) :
    ∀ (ns : List Note) (s : GameState),
    (holdGo lane h now ns s).1 =
      ns.map fun n => if holdFires lane h now n then breakHold n else n := by
  intro ns
  induction ns with
  | nil => intro s; rfl
  | cons n rest ih =>
    intro s
    by_cases hf : holdFires lane h now n = true
    · simp [holdGo, hf, ih]
    · simp [holdGo, hf, ih]

theorem holdGo_snd_score (lane : Nat) (h : Bool) (now : ℚ) :
    ∀ (ns : List Note) (s : GameState), (holdGo lane h now ns s).2.score = s.score := by
  intro ns
  induction ns with
  | nil => intro s; rfl
  | cons n rest ih =>
    intro s
    by_cases hf : holdFires lane h now n = true
    · simp [holdGo, hf, ih]
    · simp [holdGo, hf, ih]

theorem holdGo_snd_key_count (lane : Nat) (h : Bool) (now : ℚ) :
    ∀ (ns : List Note) (s : GameState),
    (holdGo lane h now ns s).2.key_count = s.key_count := by
  intro ns
  induction ns with
  | nil => intro s; rfl
  | cons n rest ih =>
    intro s
    by_cases hf : holdFires lane h now n = true
    · simp [holdGo, hf, ih]
    · simp [holdGo, hf, ih]

theorem holdGo_snd_combo (lane : Nat) (h : Bool) (now : ℚ) :
    ∀ (ns : List Note) (s : GameState),
    (holdGo lane h now ns s).2.combo =
      if ns.countP (holdFires lane h now) = 0 then s.combo else 0 := by
  intro ns
  induction ns with
  | nil => intro s; simp [holdGo]
  | cons n rest ih =>
    intro s
    cases hf : holdFires lane h now n with
    | false =>
      simp only [holdGo, hf, Bool.false_eq_true, if_false, List.countP_cons]
      simpa using ih s
    | true =>
      simp only [holdGo, hf, if_true, List.countP_cons]
      rw [ih]
      split_ifs <;> simp_all

theorem holdGo_snd_miss (lane : Nat) (h : Bool) (now : ℚ) :
    ∀ (ns : List Note) (s : GameState),
    (holdGo lane h now ns s).2.hit_counts.miss =
      s.hit_counts.miss + (ns.countP (holdFires lane h now) : Int) := by
  intro ns
  induction ns with
  | nil => intro s; simp [holdGo]
  | cons n rest ih =>
    intro s
    cases hf : holdFires lane h now n with
    | false =>
      simp only [holdGo, hf, Bool.false_eq_true, if_false, List.countP_cons]
      simpa using ih s
    | true =>
      simp only [holdGo, hf, if_true, List.countP_cons]
      rw [ih]
      simp [hf]
      ring

theorem holdGo_snd_perfect (lane : Nat) (h : Bool) (now : ℚ) :
    ∀ (ns : List Note) (s : GameState),
    (holdGo lane h now ns s).2.hit_counts.perfect = s.hit_counts.perfect := by
  intro ns
  induction ns with
  | nil => intro s; rfl
  | cons n rest ih =>
    intro s
    by_cases hf : holdFires lane h now n = true
    · simp [holdGo, hf, ih]
    · simp [holdGo, hf, ih]

theorem holdGo_snd_great (lane : Nat) (h : Bool) (now : ℚ) :
    ∀ (ns : List Note) (s : GameState),
    (holdGo lane h now ns s).2.hit_counts.great = s.hit_counts.great := by
  intro ns
  induction ns with
  | nil => intro s; rfl
  | cons n rest ih =>
    intro s
    by_cases hf : holdFires lane h now n = true
    · simp [holdGo, hf, ih]
    · simp [holdGo, hf, ih]

theorem holdGo_snd_good (lane : Nat) (h : Bool) (now : ℚ) :
    ∀ (ns : List Note) (s : GameState),
    (holdGo lane h now ns s).2.hit_counts.good = s.hit_counts.good := by
  intro ns
  induction ns with
  | nil => intro s; rfl
  | cons n rest ih =>
    intro s
    by_cases hf : holdFires lane h now n = true
    · simp [holdGo, hf, ih]
    · simp [holdGo, hf, ih]

theorem holdGo_snd_ok (lane : Nat) (h : Bool) (now : ℚ) :
    ∀ (ns : List Note) (s : GameState),
    (holdGo lane h now ns s).2.hit_counts.ok = s.hit_counts.ok := by
  intro ns
  induction ns with
  | nil => intro s; rfl
  | cons n rest ih =>
    intro s
    by_cases hf : holdFires lane h now n = true
    · simp [holdGo, hf, ih]
    · simp [holdGo, hf, ih]

theorem holdGo_id (lane : Nat) (h : Bool) (now : ℚ) :
    ∀ (ns : List Note) (s : GameState),
    ns.countP (holdFires lane h now) = 0 → holdGo lane h now ns s = (ns, s) := by
  intro ns
  induction ns with
  | nil => intro s _; rfl
  | cons n rest ih =>
    intro s hcount
    rw [List.countP_cons] at hcount
    have hf : holdFires lane h now n = false := by
      cases hfb : holdFires lane h now n
      · rfl
      · rw [hfb] at hcount
        simp at hcount
    have hr : rest.countP (holdFires lane h now) = 0 := by
      rw [hf] at hcount
      simpa using hcount
    simp [holdGo, hf, ih s hr]

theorem check_ln_hold_integrity_notes (s : GameState) (lane : Nat) (h : Bool)
    (now : ℚ) : (check_ln_hold_integrity s lane h now).notes =
      s.notes.map fun n => if holdFires lane h now n then breakHold n else n := by
  simp [check_ln_hold_integrity, holdGo_fst]

theorem check_ln_hold_integrity_key_count (s : GameState) (lane : Nat) (h : Bool)
    (now : ℚ) : (check_ln_hold_integrity s lane h now).key_count = s.key_count := by
  simp [check_ln_hold_integrity, holdGo_snd_key_count]

theorem check_ln_hold_integrity_id (s : GameState) (lane : Nat) (h : Bool)
    (now : ℚ) (hc : s.notes.countP (holdFires lane h now) = 0) :
    check_ln_hold_integrity s lane h now = s := by
  simp only [check_ln_hold_integrity]
  rw [holdGo_id lane h now s.notes s hc]

theorem holdFires_breakHold (lane : Nat) (h : Bool) (now : ℚ) (n : Note) :
    holdFires lane h now (breakHold n) = false := by
  simp [holdFires, breakHold]

theorem check_ln_hold_integrity_stable (s : GameState) (lane : Nat) (h : Bool)
    (now : ℚ) : ∀ n ∈ (check_ln_hold_integrity s lane h now).notes,
      holdFires lane h now n = false := by
  rw [check_ln_hold_integrity_notes]
  intro n hn
  rcases List.mem_map.1 hn with ⟨m, _, rfl⟩
  cases hfb : holdFires lane h now m
  · simp [hfb]
  · simp [hfb, holdFires_breakHold]

theorem check_ln_hold_integrity_pres (s : GameState) (lane2 : Nat) (h2 : Bool)
    (now2 : ℚ) (lane : Nat) (h : Bool) (now : ℚ)
    (hst : ∀ n ∈ s.notes, holdFires lane h now n = false) :
    ∀ n ∈ (check_ln_hold_integrity s lane2 h2 now2).notes,
      holdFires lane h now n = false := by
  rw [check_ln_hold_integrity_notes]
  intro n hn
  rcases List.mem_map.1 hn with ⟨m, hm, rfl⟩
  cases hfb : holdFires lane2 h2 now2 m
  · simp only [hfb, Bool.false_eq_true, if_false]
    exact hst m hm
  · simp [hfb, holdFires_breakHold]

theorem int_fold_pres (held : Nat → Bool) (now : ℚ) (lane : Nat) (h : Bool)
    (now2 : ℚ) : ∀ (lanes : List Nat) (s : GameState),
    (∀ n ∈ s.notes, holdFires lane h now2 n = false) →
    ∀ n ∈ (lanes.foldl (fun st l => check_ln_hold_integrity st l (held l) now) s).notes,
      holdFires lane h now2 n = false := by
  intro lanes
  induction lanes with
  | nil => intro s hst; exact hst
  | cons l0 rest ih =>
    intro s hst
    exact ih (check_ln_hold_integrity s l0 (held l0) now)
      (check_ln_hold_integrity_pres s l0 (held l0) now lane h now2 hst)

theorem int_fold_stable (held : Nat → Bool) (now : ℚ) :
    ∀ (lanes : List Nat) (s : GameState) (l : Nat), l ∈ lanes →
    ∀ n ∈ (lanes.foldl (fun st l => check_ln_hold_integrity st l (held l) now) s).notes,
      holdFires l (held l) now n = false := by
  intro lanes
  induction lanes with
  | nil => intro s l hl; cases hl
  | cons l0 rest ih =>
    intro s l hl
    rcases List.mem_cons.1 hl with rfl | hl'
    · exact int_fold_pres held now l (held l) now rest
        (check_ln_hold_integrity s l (held l) now)
        (check_ln_hold_integrity_stable s l (held l) now)
    · exact ih (check_ln_hold_integrity s l0 (held l0) now) l hl'

theorem int_fold_id (held : Nat → Bool) (now : ℚ) :
    ∀ (lanes : List Nat) (s : GameState),
    (∀ l ∈ lanes, ∀ n ∈ s.notes, holdFires l (held l) now n = false) →
    lanes.foldl (fun st l => check_ln_hold_integrity st l (held l) now) s = s := by
  intro lanes
  induction lanes with
  | nil => intro s _; rfl
  | cons l0 rest ih =>
    intro s hst
    have h0 : check_ln_hold_integrity s l0 (held l0) now = s := by
      apply check_ln_hold_integrity_id
      rw [List.countP_eq_zero]
      intro n hn
      simp [hst l0 (List.mem_cons_self l0 rest) n hn]
    rw [List.foldl_cons, h0]
    exact ih s fun l hl => hst l (List.mem_cons_of_mem l0 hl)

/-! ## Miss-sweep pass lemmas -/

theorem missGo_fst (now : ℚ) : ∀ (ns : List Note) (s : GameState),
    (missGo now ns s).1 = ns.map fun n => (miss_step now n).1 := by
  intro ns
  induction ns with
  | nil => intro s; rfl
  | cons n rest ih => intro s; simp [missGo, ih]

theorem missGo_snd_score (now : ℚ) : ∀ (ns : List Note) (s : GameState),
    (missGo now ns s).2.score = s.score := by
  intro ns
  induction ns with
  | nil => intro s; rfl
  | cons n rest ih =>
    intro s
    by_cases hz : (miss_step now n).2 = 0
    · simp [missGo, hz, ih]
    · simp [missGo, hz, ih, missScalars]

theorem missGo_snd_key_count (now : ℚ) : ∀ (ns : List Note) (s : GameState),
    (missGo now ns s).2.key_count = s.key_count := by
  intro ns
  induction ns with
  | nil => intro s; rfl
  | cons n rest ih =>
    intro s
    by_cases hz : (miss_step now n).2 = 0
    · simp [missGo, hz, ih]
    · simp [missGo, hz, ih, missScalars]

theorem missGo_snd_miss (now : ℚ) : ∀ (ns : List Note) (s : GameState),
    (missGo now ns s).2.hit_counts.miss =
      s.hit_counts.miss + ((ns.map fun n => (miss_step now n).2).sum : Int) := by
  intro ns
  induction ns with
  | nil => intro s; simp [missGo]
  | cons n rest ih =>
    intro s
    by_cases hz : (miss_step now n).2 = 0
    · simp [missGo, hz, ih]
    · simp only [missGo, hz, if_false, ih, missScalars, List.map_cons, List.sum_cons]
      push_cast
      ring

theorem missGo_snd_perfect (now : ℚ) : ∀ (ns : List Note) (s : GameState),
    (missGo now ns s).2.hit_counts.perfect = s.hit_counts.perfect := by
  intro ns
  induction ns with
  | nil => intro s; rfl
  | cons n rest ih =>
    intro s
    by_cases hz : (miss_step now n).2 = 0
    · simp [missGo, hz, ih]
    · simp [missGo, hz, ih, missScalars]

theorem missGo_snd_great (now : ℚ) : ∀ (ns : List Note) (s : GameState),
    (missGo now ns s).2.hit_counts.great = s.hit_counts.great := by
  intro ns
  induction ns with
  | nil => intro s; rfl
  | cons n rest ih =>
    intro s
    by_cases hz : (miss_step now n).2 = 0
    · simp [missGo, hz, ih]
    · simp [missGo, hz, ih, missScalars]

theorem missGo_snd_good (now : ℚ) : ∀ (ns : List Note) (s : GameState),
    (missGo now ns s).2.hit_counts.good = s.hit_counts.good := by
  intro ns
  induction ns with
  | nil => intro s; rfl
  | cons n rest ih =>
    intro s
    by_cases hz : (miss_step now n).2 = 0
    · simp [missGo, hz, ih]
    · simp [missGo, hz, ih, missScalars]

theorem missGo_snd_okc (now : ℚ) : ∀ (ns : List Note) (s : GameState),
    (missGo now ns s).2.hit_counts.ok = s.hit_counts.ok := by
  intro ns
  induction ns with
  | nil => intro s; rfl
  | cons n rest ih =>
    intro s
    by_cases hz : (miss_step now n).2 = 0
    · simp [missGo, hz, ih]
    · simp [missGo, hz, ih, missScalars]

theorem missGo_snd_combo (now : ℚ) : ∀ (ns : List Note) (s : GameState),
    (missGo now ns s).2.combo =
      if (ns.map fun n => (miss_step now n).2).sum = 0 then s.combo else 0 := by
  intro ns
  induction ns with
  | nil => intro s; simp [missGo]
  | cons n rest ih =>
    intro s
    by_cases hz : (miss_step now n).2 = 0
    · simp [missGo, hz, ih]
    · simp only [missGo, hz, if_false, ih, missScalars, List.map_cons, List.sum_cons]
      split_ifs <;> simp_all

theorem miss_step_zero_fst (now : ℚ) (n : Note) (h : (miss_step now n).2 = 0) :
    (miss_step now n).1 = n := by
  unfold miss_step at h ⊢
  split_ifs at h ⊢ <;> simp_all

theorem missGo_id (now : ℚ) : ∀ (ns : List Note) (s : GameState),
    (∀ n ∈ ns, (miss_step now n).2 = 0) → missGo now ns s = (ns, s) := by
  intro ns
  induction ns with
  | nil => intro s _; rfl
  | cons n rest ih =>
    intro s hz
    have h0 := hz n (List.mem_cons_self n rest)
    have hfst := miss_step_zero_fst now n h0
    simp [missGo, h0, hfst, ih s fun m hm => hz m (List.mem_cons_of_mem n hm)]

theorem check_missed_notes_notes (s : GameState) (now : ℚ) :
    (check_missed_notes s now).notes = s.notes.map fun n => (miss_step now n).1 := by
  simp [check_missed_notes, missGo_fst]

theorem check_missed_notes_id (s : GameState) (now : ℚ)
    (h : ∀ n ∈ s.notes, (miss_step now n).2 = 0) : check_missed_notes s now = s := by
  simp only [check_missed_notes]
  rw [missGo_id now s.notes s h]

theorem miss_step_missed (now : ℚ) (n : Note) (h : n.missed = true) :
    miss_step now n = (n, 0) := by
  unfold miss_step
  simp [h]

theorem miss_step_cases (now : ℚ) (n : Note) :
    ((miss_step now n).1 = n ∧ (miss_step now n).2 = 0) ∨
      ((miss_step now n).1).missed = true := by
  unfold miss_step
  split_ifs <;> simp [missLNHead, missLNTail]

theorem miss_step_stable (now : ℚ) (n : Note) :
    (miss_step now ((miss_step now n).1)).2 = 0 := by
  rcases miss_step_cases now n with ⟨hf, hz⟩ | hm
  · rw [hf]
    exact hz
  · rw [miss_step_missed now ((miss_step now n).1) hm]

theorem check_missed_notes_stable (s : GameState) (now : ℚ) :
    ∀ n ∈ (check_missed_notes s now).notes, (miss_step now n).2 = 0 := by
  rw [check_missed_notes_notes]
  intro n hn
  rcases List.mem_map.1 hn with ⟨m, _, rfl⟩
  exact miss_step_stable now m

theorem holdFires_miss_step (lane : Nat) (h : Bool) (now2 now : ℚ) (n : Note)
    (hst : holdFires lane h now2 n = false) :
    holdFires lane h now2 ((miss_step now n).1) = false := by
  unfold miss_step
  split_ifs <;> simp_all [holdFires, missLNHead, missLNTail]

/-! ## Slider-sound pass lemmas -/

theorem slider_sound_pass_notes (s : GameState) (now : ℚ) :
    (slider_sound_pass s now).notes = s.notes.map fun n => (slider_step now n).1 := rfl

theorem slider_sound_pass_score (s : GameState) (now : ℚ) :
    (slider_sound_pass s now).score = s.score := rfl

theorem slider_sound_pass_combo (s : GameState) (now : ℚ) :
    (slider_sound_pass s now).combo = s.combo := rfl

theorem slider_sound_pass_hit_counts (s : GameState) (now : ℚ) :
    (slider_sound_pass s now).hit_counts = s.hit_counts := rfl

theorem slider_sound_pass_key_count (s : GameState) (now : ℚ) :
    (slider_sound_pass s now).key_count = s.key_count := rfl

theorem slider_step_fst_sound (now : ℚ) (n : Note) :
    ∃ b, (slider_step now n).1 = { n with slider_sound_playing := b } := by
  unfold slider_step
  split_ifs <;> exact ⟨_, rfl⟩

theorem holdFires_setSound (lane : Nat) (h : Bool) (now : ℚ) (n : Note) (b : Bool) :
    holdFires lane h now { n with slider_sound_playing := b } =
      holdFires lane h now n := rfl

theorem miss_step_snd_setSound (now : ℚ) (n : Note) (b : Bool) :
    (miss_step now { n with slider_sound_playing := b }).2 = (miss_step now n).2 := by
  unfold miss_step
  split_ifs <;> rfl

/-- Witness for C10: a press far from the only note changes nothing; a
press at the note's time bumps the combo by one. -/
theorem C10_press_frame_effect_witness :
    handle_key_press wTapState 0 99 = wTapState ∧
    (handle_key_press wTapState 0 2).combo = wTapState.combo + 1 := by
  constructor
  · exact (C10_press_frame_effect wTapState 0 99).1
      (by norm_num [findClosest, findClosestAux, selStep, isCand, canHit,
        wTapState, wTapNote, OK_WINDOW, rabs])
  · obtain ⟨n, jdg, hn, hj, hne, hm, heq, hother⟩ :=
      (C10_press_frame_effect wTapState 0 2).2 0 0
        (by norm_num [findClosest, findClosestAux, selStep, isCand, canHit,
          wTapState, wTapNote, OK_WINDOW, rabs])
    rw [heq]

/-! ## A broken hold stays broken through every pass -/

theorem preservesBroken_map (g : Note → Note)
    (hg : ∀ n, n.ln_hold_broken = true → (g n).ln_hold_broken = true)
    (f : GameState → GameState)
    (hf : ∀ s, (f s).notes = s.notes.map g) : preservesBroken f := by
  intro s j m hj hb
  refine ⟨g m, ?_, hg m hb⟩
  rw [hf, List.getElem?_map, hj]
  rfl

theorem preservesBroken_integrity (lane : Nat) (h : Bool) (now : ℚ) :
    preservesBroken fun s => check_ln_hold_integrity s lane h now := by
  refine preservesBroken_map _ ?_ _ fun s => check_ln_hold_integrity_notes s lane h now
  intro n hb
  split_ifs
  · simp [breakHold]
  · exact hb

theorem preservesBroken_sweep (now : ℚ) :
    preservesBroken fun s => check_missed_notes s now := by
  refine preservesBroken_map _ ?_ _ fun s => check_missed_notes_notes s now
  intro n hb
  unfold miss_step
  split_ifs <;> simp [missLNHead, missLNTail, hb]

theorem preservesBroken_slider (now : ℚ) :
    preservesBroken fun s => slider_sound_pass s now := by
  refine preservesBroken_map _ ?_ _ fun s => slider_sound_pass_notes s now
  intro n hb
  obtain ⟨b, hbb⟩ := slider_step_fst_sound now n
  rw [hbb]
  exact hb

theorem preservesBroken_press (lane : Nat) (now : ℚ) :
    preservesBroken fun s => handle_key_press s lane now := by
  intro s j m hj hb
  rcases hsel : findClosest lane now s.notes with _ | ⟨idx, d⟩
  · simp only [handle_key_press, hsel]
    exact ⟨m, hj, hb⟩
  · rcases hnote : s.notes[idx]? with _ | note
    · simp only [handle_key_press, hsel, hnote]
      exact ⟨m, hj, hb⟩
    · simp only [handle_key_press, hsel, hnote]
      by_cases hmiss : HitJudgment.from_timing (rabs (note.start_time - now)) =
          HitJudgment.Miss
      · rw [if_pos hmiss]
        exact ⟨m, hj, hb⟩
      · rw [if_neg hmiss]
        by_cases hln : note.is_ln = true
        · rw [if_pos hln]
          by_cases hij : idx = j
          · subst hij
            rw [hnote] at hj
            obtain rfl := Option.some_inj.1 hj
            exact ⟨_, List.getElem?_set_self (getElem?_lt_length _ _ _ hnote), hb⟩
          · exact ⟨m, by rw [List.getElem?_set_ne hij]; exact hj, hb⟩
        · rw [if_neg hln]
          by_cases hij : idx = j
          · subst hij
            rw [hnote] at hj
            obtain rfl := Option.some_inj.1 hj
            exact ⟨_, List.getElem?_set_self (getElem?_lt_length _ _ _ hnote), hb⟩
          · exact ⟨m, by rw [List.getElem?_set_ne hij]; exact hj, hb⟩

theorem relGo_broken (lane : Nat) (now : ℚ) : ∀ (ns : List Note) (s : GameState)
    (j : Nat) (m : Note), ns[j]? = some m → m.ln_hold_broken = true →
    ∃ m2, (relGo lane now ns s).1[j]? = some m2 ∧ m2.ln_hold_broken = true := by
  intro ns
  induction ns with
  | nil =>
    intro s j m hj _
    simp at hj
  | cons n rest ih =>
    intro s j m hj hb
    by_cases hfire : n.lane = lane ∧ n.is_ln ∧ n.ln_head_hit ∧ ¬n.ln_completed ∧
        ¬n.ln_hold_broken ∧ rabs (n.end_time - now) < OK_WINDOW
    · simp only [relGo, if_pos hfire]
      cases j with
      | zero =>
        simp only [List.getElem?_cons_zero] at hj ⊢
        obtain rfl := Option.some_inj.1 hj
        exact ⟨_, rfl, by simpa [completedTail] using hb⟩
      | succ j' =>
        simp only [List.getElem?_cons_succ] at hj ⊢
        exact ⟨m, hj, hb⟩
    · simp only [relGo, if_neg hfire]
      cases j with
      | zero =>
        simp only [List.getElem?_cons_zero] at hj ⊢
        obtain rfl := Option.some_inj.1 hj
        exact ⟨_, rfl, hb⟩
      | succ j' =>
        simp only [List.getElem?_cons_succ] at hj ⊢
        exact ih s j' m hj hb

theorem preservesBroken_release (lane : Nat) (now : ℚ) :
    preservesBroken fun s => handle_key_release s lane now := by
  intro s j m hj hb
  have h := relGo_broken lane now s.notes s j m hj hb
  simpa [handle_key_release] using h

theorem preservesBroken_foldl {β : Type} (f : GameState → β → GameState)
    (hf : ∀ b, preservesBroken fun s => f s b) :
    ∀ l : List β, preservesBroken fun s => l.foldl f s := by
  intro l
  induction l with
  | nil =>
    intro s j m hj hb
    exact ⟨m, hj, hb⟩
  | cons b rest ih =>
    intro s j m hj hb
    obtain ⟨m2, hm2, hb2⟩ := hf b s j m hj hb
    exact ih (f s b) j m2 hm2 hb2

theorem preservesBroken_update (pl rl : List Nat) (held : Nat → Bool) (now : ℚ) :
    preservesBroken fun s => update_passes s pl rl held now := by
  intro s j m hj hb
  obtain ⟨m1, h1, b1⟩ := preservesBroken_foldl (fun st l => handle_key_press st l now)
    (fun l => preservesBroken_press l now) pl s j m hj hb
  obtain ⟨m2, h2, b2⟩ := preservesBroken_foldl (fun st l => handle_key_release st l now)
    (fun l => preservesBroken_release l now) rl _ j m1 h1 b1
  obtain ⟨m3, h3, b3⟩ := preservesBroken_foldl
    (fun st l => check_ln_hold_integrity st l (held l) now)
    (fun l => preservesBroken_integrity l (held l) now) (List.range _) _ j m2 h2 b2
  obtain ⟨m4, h4, b4⟩ := preservesBroken_slider now _ j m3 h3 b3
  obtain ⟨m5, h5, b5⟩ := preservesBroken_sweep now _ j m4 h4 b4
  exact ⟨m5, h5, b5⟩

/-! ## Claim theorems: hold break and missed-note sweep -/

/-- C4: a long note with `head_hit`, not completed, not broken, with `now`
inside `[start_time, end_time)` and the lane key not held, is broken by
the hold-integrity pass: `hold_broken` and `completed` are set, the tail
judgment becomes Miss, the combo resets to 0, and the miss bucket grows by
the number of firing notes — exactly 1 when this is the only firing note —
while every other bucket is untouched; and a broken note stays broken
through any further frame. -/
theorem C4_hold_break : ∀ (s : GameState) (lane : Nat) (now : ℚ) (i : Nat)
    (n : Note), s.notes[i]? = some n → n.lane = lane → n.is_ln = true →
    n.ln_head_hit = true → n.ln_completed = false → n.ln_hold_broken = false →
    n.start_time ≤ now → now < n.end_time →
    ((check_ln_hold_integrity s lane false now).notes[i]? = some (breakHold n) ∧
      (breakHold n).ln_hold_broken = true ∧ (breakHold n).ln_completed = true ∧
      (breakHold n).ln_tail_judgment = some HitJudgment.Miss ∧
      (check_ln_hold_integrity s lane false now).combo = 0 ∧
      (check_ln_hold_integrity s lane false now).hit_counts.miss =
        s.hit_counts.miss + (s.notes.countP (holdFires lane false now) : Int) ∧
      1 ≤ s.notes.countP (holdFires lane false now) ∧
      (s.notes.countP (holdFires lane false now) = 1 →
        (check_ln_hold_integrity s lane false now).hit_counts.miss =
          s.hit_counts.miss + 1) ∧
      (check_ln_hold_integrity s lane false now).hit_counts.perfect =
        s.hit_counts.perfect ∧
      (check_ln_hold_integrity s lane false now).hit_counts.great =
        s.hit_counts.great ∧
      (check_ln_hold_integrity s lane false now).hit_counts.good =
        s.hit_counts.good ∧
      (check_ln_hold_integrity s lane false now).hit_counts.ok =
        s.hit_counts.ok) ∧
    (∀ (u : GameState) (j : Nat) (m : Note) (pl rl : List Nat)
      (held : Nat → Bool) (now2 : ℚ), u.notes[j]? = some m →
      m.ln_hold_broken = true →
      ∃ m2, (update_passes u pl rl held now2).notes[j]? = some m2 ∧
        m2.ln_hold_broken = true) := by
  intro s lane now i n hi hlane hln hhead hcomp hbrk hs he
  have hfire : holdFires lane false now n = true := by
    simp [holdFires, hlane, hln, hhead, hcomp, hbrk, hs, he]
  have hmem : n ∈ s.notes := List.getElem?_mem hi
  have hpos : 0 < s.notes.countP (holdFires lane false now) :=
    List.countP_pos_iff.2 ⟨n, hmem, hfire⟩
  constructor
  · refine ⟨?_, rfl, rfl, rfl, ?_, ?_, hpos, ?_, ?_, ?_, ?_, ?_⟩
    · rw [check_ln_hold_integrity_notes, List.getElem?_map, hi]
      simp [hfire]
    · simp only [check_ln_hold_integrity]
      rw [holdGo_snd_combo, if_neg (by omega)]
    · simp only [check_ln_hold_integrity]
      rw [holdGo_snd_miss]
    · intro h1
      simp only [check_ln_hold_integrity]
      rw [holdGo_snd_miss, h1]
      norm_num
    · simp only [check_ln_hold_integrity]
      rw [holdGo_snd_perfect]
    · simp only [check_ln_hold_integrity]
      rw [holdGo_snd_great]
    · simp only [check_ln_hold_integrity]
      rw [holdGo_snd_good]
    · simp only [check_ln_hold_integrity]
      rw [holdGo_snd_ok]
  · intro u j m pl rl held now2 hj hb
    exact preservesBroken_update pl rl held now2 u j m hj hb

/-- Witness for C4: the held long note over `[0,1)` breaks at `now = 1/2`
with the key up. -/
theorem C4_hold_break_witness :
    (check_ln_hold_integrity c4State 0 false (1/2)).notes[0]? =
      some (breakHold c4Note) ∧
    (check_ln_hold_integrity c4State 0 false (1/2)).combo = 0 := by
  have h := C4_hold_break c4State 0 (1/2) 0 c4Note rfl rfl rfl rfl rfl rfl
    (by norm_num [c4State, c4Note, c9Note]) (by norm_num [c4State, c4Note, c9Note])
  exact ⟨h.1.1, h.1.2.2.2.2.1⟩

/-- C5: the miss sweep resolves a long note whose head was never hit once
`start_time - now < -0.135` by setting `missed`, both judgments Miss,
resetting the combo, and contributing exactly 2 to the miss bucket (the
bucket grows by the total contribution of all notes this frame); a long
note whose head was hit but whose tail never resolved contributes exactly
1 once `end_time - now < -0.135`, with tail judgment Miss and combo 0. -/
theorem C5_missed_ln_sweep : ∀ (s : GameState) (now : ℚ) (i : Nat) (n : Note),
    s.notes[i]? = some n → n.missed = false → n.is_ln = true →
    ((n.ln_head_hit = false → n.start_time - now < -OK_WINDOW →
      (check_missed_notes s now).notes[i]? = some (missLNHead n) ∧
      (missLNHead n).ln_head_judgment = some HitJudgment.Miss ∧
      (missLNHead n).ln_tail_judgment = some HitJudgment.Miss ∧
      (missLNHead n).missed = true ∧
      (check_missed_notes s now).combo = 0 ∧
      (miss_step now n).2 = 2 ∧
      (check_missed_notes s now).hit_counts.miss =
        s.hit_counts.miss + ((s.notes.map fun m => (miss_step now m).2).sum : Int)) ∧
    (n.ln_head_hit = true → n.ln_completed = false → n.end_time - now < -OK_WINDOW →
      (check_missed_notes s now).notes[i]? = some (missLNTail n) ∧
      (missLNTail n).ln_tail_judgment = some HitJudgment.Miss ∧
      (missLNTail n).missed = true ∧
      (check_missed_notes s now).combo = 0 ∧
      (miss_step now n).2 = 1 ∧
      (check_missed_notes s now).hit_counts.miss =
        s.hit_counts.miss +
          ((s.notes.map fun m => (miss_step now m).2).sum : Int))) := by
  intro s now i n hi hm hln
  have hmem : n ∈ s.notes := List.getElem?_mem hi
  constructor
  · intro hh hw
    have hstep : miss_step now n = (missLNHead n, 2) := by
      unfold miss_step
      simp [hm, hln, hh, hw]
    have h2 : (2 : Nat) ∈ s.notes.map fun m => (miss_step now m).2 :=
      List.mem_map.2 ⟨n, hmem, by rw [hstep]⟩
    have hsum : (s.notes.map fun m => (miss_step now m).2).sum ≠ 0 := by
      intro h0
      have := (List.sum_eq_zero_iff.1 h0) 2 h2
      omega
    refine ⟨?_, rfl, rfl, rfl, ?_, by rw [hstep], ?_⟩
    · rw [check_missed_notes_notes, List.getElem?_map, hi]
      simp [hstep]
    · simp only [check_missed_notes]
      rw [missGo_snd_combo, if_neg hsum]
    · simp only [check_missed_notes]
      rw [missGo_snd_miss]
  · intro hh hcomp hw
    have hstep : miss_step now n = (missLNTail n, 1) := by
      unfold miss_step
      simp [hm, hln, hh, hcomp, hw]
    have h1 : (1 : Nat) ∈ s.notes.map fun m => (miss_step now m).2 :=
      List.mem_map.2 ⟨n, hmem, by rw [hstep]⟩
    have hsum : (s.notes.map fun m => (miss_step now m).2).sum ≠ 0 := by
      intro h0
      have := (List.sum_eq_zero_iff.1 h0) 1 h1
      omega
    refine ⟨?_, rfl, rfl, ?_, by rw [hstep], ?_⟩
    · rw [check_missed_notes_notes, List.getElem?_map, hi]
      simp [hstep]
    · simp only [check_missed_notes]
      rw [missGo_snd_combo, if_neg hsum]
    · simp only [check_missed_notes]
      rw [missGo_snd_miss]

/-- Witness for C5: the untouched long note over `[5,6)` is double-missed
by the sweep at `now = 10`. -/
theorem C5_missed_ln_sweep_witness :
    (check_missed_notes c5State 10).notes[0]? = some (missLNHead c5Note) ∧
    (check_missed_notes c5State 10).combo = 0 ∧ (miss_step 10 c5Note).2 = 2 := by
  have h := (C5_missed_ln_sweep c5State 10 0 c5Note rfl rfl rfl).1 rfl
    (by norm_num [c5Note, OK_WINDOW])
  exact ⟨h.1, h.2.2.2.2.1, h.2.2.2.2.2.1⟩

/-! ## Idempotence of an identical second frame -/

theorem check_missed_notes_key_count (s : GameState) (now : ℚ) :
    (check_missed_notes s now).key_count = s.key_count := by
  simp only [check_missed_notes]
  rw [missGo_snd_key_count]

theorem int_fold_key_count (held : Nat → Bool) (now : ℚ) :
    ∀ (lanes : List Nat) (t : GameState),
    ((lanes.foldl (fun st l => check_ln_hold_integrity st l (held l) now) t)).key_count =
      t.key_count := by
  intro lanes
  induction lanes with
  | nil => intro t; rfl
  | cons l0 rest ih =>
    intro t
    rw [List.foldl_cons, ih, check_ln_hold_integrity_key_count]

/-- C2: running the per-frame judgment passes a second time with the same
clock value and key-down state and no new press or release events changes
neither the score, the combo, nor any hit-count bucket, for every session
state. -/
theorem C2_update_idempotent : ∀ (s : GameState) (held : Nat → Bool) (now : ℚ),
    (update_passes (update_passes s [] [] held now) [] [] held now).score =
      (update_passes s [] [] held now).score ∧
    (update_passes (update_passes s [] [] held now) [] [] held now).combo =
      (update_passes s [] [] held now).combo ∧
    (update_passes (update_passes s [] [] held now) [] [] held now).hit_counts =
      (update_passes s [] [] held now).hit_counts := by
  intro s held now
  have hupd : ∀ t : GameState, update_passes t [] [] held now =
      check_missed_notes (slider_sound_pass
        ((List.range t.key_count).foldl
          (fun st l => check_ln_hold_integrity st l (held l) now) t) now) now :=
    fun t => rfl
  set s3 := (List.range s.key_count).foldl
    (fun st l => check_ln_hold_integrity st l (held l) now) s with hs3
  set s4 := slider_sound_pass s3 now with hs4
  set s1 := check_missed_notes s4 now with hs1
  have h1 : update_passes s [] [] held now = s1 := hupd s
  have hkc : s1.key_count = s.key_count := by
    rw [hs1, check_missed_notes_key_count, hs4, slider_sound_pass_key_count, hs3,
      int_fold_key_count]
  have hstable : ∀ l ∈ List.range s.key_count, ∀ n ∈ s1.notes,
      holdFires l (held l) now n = false := by
    intro l hl n hn
    rw [hs1, check_missed_notes_notes] at hn
    rcases List.mem_map.1 hn with ⟨m4, hm4, rfl⟩
    apply holdFires_miss_step
    rw [hs4, slider_sound_pass_notes] at hm4
    rcases List.mem_map.1 hm4 with ⟨m3, hm3, rfl⟩
    obtain ⟨b, hbb⟩ := slider_step_fst_sound now m3
    rw [hbb, holdFires_setSound]
    exact int_fold_stable held now (List.range s.key_count) s l hl m3 (hs3 ▸ hm3)
  have hmiss4 : ∀ n ∈ (slider_sound_pass s1 now).notes, (miss_step now n).2 = 0 := by
    intro n hn
    rw [slider_sound_pass_notes] at hn
    rcases List.mem_map.1 hn with ⟨m, hm, rfl⟩
    obtain ⟨b, hbb⟩ := slider_step_fst_sound now m
    rw [hbb, miss_step_snd_setSound]
    exact check_missed_notes_stable s4 now m (hs1 ▸ hm)
  have h2 : update_passes s1 [] [] held now = slider_sound_pass s1 now := by
    rw [hupd s1, hkc, int_fold_id held now (List.range s.key_count) s1 hstable]
    exact check_missed_notes_id (slider_sound_pass s1 now) now hmiss4
  rw [h1, h2]
  exact ⟨rfl, rfl, rfl⟩

end Rustania
